import Mathlib

/-!
# Verification of the Solana transaction crawler core

A shallow embedding of the crawler library (`solana-transaction-crawler`).
The repository's `src/lib.rs` only declares the modules `crawler`, `filters`,
`errors` and `constants` and documents their use; the module bodies are not
part of the source tree given here, so the core pipeline is modelled from the
specification, faithful to its words (definitions say so in their doc
comments).  Public keys and signatures are opaque identifiers, modelled as
naturals.
-/

abbrev PublicKey := Nat
abbrev Signature := Nat

/-- Modelled from the spec: execution status of a raw transaction record,
one of success or failed with an error string (§3 data model). -/
inductive TxStatus where
  | success : TxStatus
  | failed (err : String) : TxStatus
deriving DecidableEq, Repr

/-- Modelled from the spec: a raw (compiled) instruction as supplied by the
fetcher — a program-id index, a list of account indices into the
transaction's key vector, and opaque data bytes (§3). -/
structure RawInstruction where
  programIdIndex : Nat
  accounts : List Nat
  data : List Nat
deriving DecidableEq, Repr

/-- Modelled from the spec: a group of inner instructions associated with an
outer-instruction index (§3). -/
structure InnerGroup where
  outerIndex : Nat
  instructions : List RawInstruction
deriving DecidableEq, Repr

/-- Modelled from the spec: a raw transaction record — status, combined
account-key vector (static keys then lookup-table keys), outer instructions
in order, and inner-instruction groups (§3). -/
structure RawTransaction where
  status : TxStatus
  accountKeys : List PublicKey
  outerInstructions : List RawInstruction
  innerGroups : List InnerGroup
deriving DecidableEq, Repr

/-- Modelled from the spec: provenance of a normalized instruction, either
the i-th outer instruction or the j-th inner instruction of outer index i. -/
inductive Origin where
  | outer (i : Nat) : Origin
  | inner (i j : Nat) : Origin
deriving DecidableEq, Repr

/-- Modelled from the spec: a normalized instruction — resolved program id,
resolved account keys, data, and origin (§3). -/
structure NormalizedInstruction where
  programId : PublicKey
  accounts : List PublicKey
  data : List Nat
  origin : Origin
deriving DecidableEq, Repr

/-- Modelled from the spec: normalizer output — status, the transaction's
account-key vector (kept for transaction-level predicates), and the flat
instruction list, outer instructions first then inner groups in declared
order (§4.2). -/
structure NormalizedTx where
  status : TxStatus
  accountKeys : List PublicKey
  instructions : List NormalizedInstruction
deriving DecidableEq, Repr

/-- Modelled from the spec: resolve one raw instruction against the
transaction's account-key vector; an out-of-range index is a normalization
failure (§4.2). -/
def normalizeInstruction (keys : List PublicKey) (origin : Origin)
    (ri : RawInstruction) : Option NormalizedInstruction := do
  let pid ← keys[ri.programIdIndex]?
  let accs ← ri.accounts.mapM (fun i => keys[i]?)
  pure { programId := pid, accounts := accs, data := ri.data, origin := origin }

/-- Pair every list element with its position. -/
def enumFrom (n : Nat) : List α → List (Nat × α)
  | [] => []
  | a :: l => (n, a) :: enumFrom (n + 1) l

/-- Modelled from the spec: the transaction normalizer — emit all outer
instructions in declared order, then all inner instructions grouped by their
parent outer index in declared order; any out-of-range account index fails
the whole normalization (§4.2). -/
def normalizeTx (tx : RawTransaction) : Option NormalizedTx := do
  let outs ← (enumFrom 0 tx.outerInstructions).mapM
    (fun p => normalizeInstruction tx.accountKeys (Origin.outer p.1) p.2)
  let inns ← tx.innerGroups.mapM (fun g =>
    (enumFrom 0 g.instructions).mapM
      (fun p => normalizeInstruction tx.accountKeys (Origin.inner g.outerIndex p.1) p.2))
  pure { status := tx.status, accountKeys := tx.accountKeys,
         instructions := outs ++ inns.flatten }

/-- Modelled from the spec: an account selector is either a literal index
into the current instruction's accounts, or a reference to another
selector's label (§3, §4.3). -/
inductive SelectorKind where
  | literal (index : Nat) : SelectorKind
  | named (label : String) : SelectorKind
deriving DecidableEq, Repr

/-- Modelled from the spec: a labeled account selector (`IxAccount` in the
source's documented API). -/
structure IxAccount where
  label : String
  kind : SelectorKind
deriving DecidableEq, Repr

/-- The documented `IxAccount::unparsed(label, index)` constructor: a
literal-position selector. -/
def IxAccount.unparsed (label : String) (index : Nat) : IxAccount :=
  { label := label, kind := SelectorKind.literal index }

/-- First value bound to a key in an association list. -/
def assocLookup [BEq κ] (k : κ) : List (κ × α) → Option α
  | [] => none
  | p :: rest => if p.1 == k then some p.2 else assocLookup k rest

/-- Modelled from the spec: resolve one selector kind on a normalized
instruction, given the pairs already resolved on the same instruction during
this pass. `literal i` reads `accounts[i]` and fails when out of range;
`named l` looks up `l` among the already-resolved pairs and fails when
absent (§4.3). -/
def resolveKind (acc : List (String × PublicKey))
    (ins : NormalizedInstruction) : SelectorKind → Option PublicKey
  | SelectorKind.literal i => ins.accounts[i]?
  | SelectorKind.named l => assocLookup l acc

/-- Modelled from the spec: resolve the selectors in insertion order,
threading the pairs resolved so far on this instruction; any failure fails
the whole row (§4.3, I3). -/
def resolveRowAux (ins : NormalizedInstruction) :
    List IxAccount → List (String × PublicKey) → Option (List (String × PublicKey))
  | [], acc => some acc
  | s :: rest, acc =>
    match resolveKind acc ins s.kind with
    | none => none
    | some v => resolveRowAux ins rest (acc ++ [(s.label, v)])

/-- Modelled from the spec: resolve a full selector row on one instruction,
starting from an empty per-instruction resolution state (§4.3). -/
def resolveRow (sels : List IxAccount) (ins : NormalizedInstruction) :
    Option (List (String × PublicKey)) :=
  resolveRowAux ins sels []

abbrev TxFilter := NormalizedTx → Bool
abbrev IxFilter := NormalizedInstruction → Bool

/-- Modelled from the spec: the crawler's configuration — transaction-filter
chain, instruction-filter chain and selector list, all in insertion
order (§4.1). -/
structure CrawlerCfg where
  txFilters : List TxFilter
  ixFilters : List IxFilter
  selectors : List IxAccount

/-- Modelled from the spec: process one instruction — apply the ix-filter
chain in insertion order, then resolve every selector; if any selector fails
the instruction is skipped and contributes to no bucket (§4.1 step 3c). -/
def processInstruction (cfg : CrawlerCfg) (ins : NormalizedInstruction) :
    Option (List (String × PublicKey)) :=
  if cfg.ixFilters.all (fun f => f ins) then resolveRow cfg.selectors ins
  else none

/-- Concatenation of the images of a list-valued function. -/
def joinMap (f : α → List β) : List α → List β
  | [] => []
  | a :: l => f a ++ joinMap f l

/-- Modelled from the spec: process one normalized transaction — apply the
tx-filter chain, then every instruction in outer-then-inner order,
collecting each surviving instruction's origin and resolved row (§4.1). -/
def processTx (cfg : CrawlerCfg) (ntx : NormalizedTx) :
    List (Origin × List (String × PublicKey)) :=
  if cfg.txFilters.all (fun f => f ntx) then
    ntx.instructions.filterMap
      (fun ins => (processInstruction cfg ins).map (fun row => (ins.origin, row)))
  else []

/-- Modelled from the spec: the per-run row stream — for every fetched
transaction in visitation order, normalize it (skipping transactions that
fail to normalize) and emit the surviving instructions' rows tagged with the
signature and origin (§4.1 step 3). -/
def crawlRows (cfg : CrawlerCfg) (txs : List (Signature × RawTransaction)) :
    List (Signature × Origin × List (String × PublicKey)) :=
  joinMap (fun st =>
    match normalizeTx st.2 with
    | none => []
    | some ntx => (processTx cfg ntx).map (fun p => (st.1, p.1, p.2))) txs

/-- Modelled from the spec: the bucket of one label — the label's resolved
key from each surviving instruction, in visitation order (§3 result
buckets). -/
def bucket (cfg : CrawlerCfg) (txs : List (Signature × RawTransaction))
    (l : String) : List PublicKey :=
  (crawlRows cfg txs).filterMap (fun r => assocLookup l r.2.2)

/-- Modelled from the spec: the aggregated result mapping, one bucket per
configured selector label (§4.1 step 4). -/
def runResult (cfg : CrawlerCfg) (txs : List (Signature × RawTransaction)) :
    List (String × List PublicKey) :=
  cfg.selectors.map (fun s => (s.label, bucket cfg txs s.label))

/-- Modelled from the spec: configuration errors (§7). -/
inductive ConfigError where
  | DuplicateLabel : ConfigError
  | ForwardLabelReference : ConfigError
deriving DecidableEq, Repr

/-- Modelled from the spec: `add_account_index` appends an account selector;
a selector whose label is already configured is rejected at configuration
time with `ConfigError::DuplicateLabel`, before any RPC call (§4.1, §7). -/
def addAccountIndex (cfg : CrawlerCfg) (s : IxAccount) :
    Except ConfigError CrawlerCfg :=
  if s.label ∈ cfg.selectors.map (fun t => t.label) then
    Except.error ConfigError.DuplicateLabel
  else
    Except.ok { cfg with selectors := cfg.selectors ++ [s] }

/-- Modelled from the spec: `add_tx_filter` appends to the transaction-filter
chain (§4.1). -/
def addTxFilter (cfg : CrawlerCfg) (f : TxFilter) : CrawlerCfg :=
  { cfg with txFilters := cfg.txFilters ++ [f] }

/-- Modelled from the spec: `add_ix_filter` appends to the instruction-filter
chain (§4.1). -/
def addIxFilter (cfg : CrawlerCfg) (f : IxFilter) : CrawlerCfg :=
  { cfg with ixFilters := cfg.ixFilters ++ [f] }

/-- Modelled from the spec: comparison kinds for `IxNumberAccounts` — equal
to, less than, greater than, or inclusively between (§4.4). -/
inductive NumberAccountsKind where
  | equalTo (n : Nat) : NumberAccountsKind
  | lessThan (n : Nat) : NumberAccountsKind
  | greaterThan (n : Nat) : NumberAccountsKind
  | between (lo hi : Nat) : NumberAccountsKind
deriving DecidableEq, Repr

/-- Modelled from the spec: `TxHasProgramId` — true iff some (outer or
inner) instruction's program id equals the given key (§4.4). -/
def txHasProgramId (p : PublicKey) : TxFilter := fun ntx =>
  ntx.instructions.any (fun ins => ins.programId == p)

/-- Modelled from the spec: `SuccessfulTxFilter` — true iff the transaction
status is success (§4.4). -/
def successfulTxFilter : TxFilter := fun ntx =>
  match ntx.status with
  | TxStatus.success => true
  | TxStatus.failed _ => false

/-- Modelled from the spec: `TxAccountsContains` — true iff the key appears
in the transaction's account-key vector (§4.4). -/
def txAccountsContains (p : PublicKey) : TxFilter := fun ntx =>
  ntx.accountKeys.any (fun k => k == p)

/-- Modelled from the spec: `IxProgramId` — program-id equality (§4.4). -/
def ixProgramId (p : PublicKey) : IxFilter := fun ins => ins.programId == p

/-- Modelled from the spec: `IxNumberAccounts` — compare the instruction's
account count against the kind (§4.4). -/
def ixNumberAccounts (k : NumberAccountsKind) : IxFilter := fun ins =>
  match k with
  | NumberAccountsKind.equalTo n => ins.accounts.length == n
  | NumberAccountsKind.lessThan n => ins.accounts.length < n
  | NumberAccountsKind.greaterThan n => n < ins.accounts.length
  | NumberAccountsKind.between lo hi =>
    lo ≤ ins.accounts.length ∧ ins.accounts.length ≤ hi

/-- Modelled from the spec: `IxDataStartsWith` — byte-prefix match on the
instruction data (§4.4). -/
def ixDataStartsWith (pfx : List Nat) : IxFilter := fun ins =>
  decide (ins.data.take pfx.length = pfx)

/-- Modelled from the spec: one entry of a signature page as returned by
`list_signatures` (§6). -/
structure SigInfo where
  signature : Signature
  slot : Nat
  err : Option String
  blockTime : Option Int
deriving DecidableEq, Repr

/-- Modelled from the spec: crawl errors — fatal RPC failure on the
signature pager, or a page all of whose transaction fetches failed (§7). -/
inductive CrawlError where
  | Rpc (msg : String) : CrawlError
  | PageExhausted : CrawlError
deriving DecidableEq, Repr

/-- Modelled from the spec: the entries of a chain (newest-first) strictly
older than a cursor signature — the suffix after the cursor's first
occurrence (§6 `list_signatures` contract). -/
def entriesOlderThan (before : Signature) : List SigInfo → List SigInfo
  | [] => []
  | e :: rest => if e.signature == before then rest else entriesOlderThan before rest

/-- Modelled from the spec: the `list_signatures` RPC over a fixed chain
state — up to `limit` entries, newest-first, strictly older than the cursor
when one is given (§6). -/
def listSignatures (chain : List SigInfo) (before : Option Signature)
    (limit : Nat) : List SigInfo :=
  match before with
  | none => chain.take limit
  | some b => (entriesOlderThan b chain).take limit

/-- Modelled from the spec: dispatch the fetches of one page in the
completion order given by a schedule, then re-sort the results to page
order, so the consumed order is the page order regardless of the
schedule (§4.1 step 2, §5). -/
def fetchPagePar (fetch : Signature → Except String RawTransaction)
    (page : List SigInfo) (sched : List Nat) :
    List (Signature × Except String RawTransaction) :=
  let completed := sched.filterMap (fun i =>
    (page[i]?).map (fun s => (i, (s.signature, fetch s.signature))))
  (List.range page.length).filterMap (fun i =>
    (assocLookup i completed))

/-- The sequential schedule: fetch the page entries in page order. -/
def seqSched : Nat → Nat → List Nat := fun _ n => List.range n

/-- Modelled from the spec: the fetch phase of `run()` — paginate the
signature pager with the oldest signature of each full page as the next
`before` cursor, fetch each page's transactions (re-ordered to page order),
skip and count single-fetch failures, abort with `PageExhausted` when every
fetch of a non-empty page failed, and stop on an empty or short page
(§4.1 steps 1-2, §7).  `fuel` bounds the number of pages; the pair returned
is the fetched transactions in visitation order and the count of skipped
signatures. -/
def fetchLoop (pager : Option Signature → Except String (List SigInfo))
    (fetch : Signature → Except String RawTransaction)
    (sched : Nat → Nat → List Nat) (limit : Nat) :
    Nat → Option Signature → Nat →
    Except CrawlError (List (Signature × RawTransaction) × Nat)
  | 0, _, _ => Except.ok ([], 0)
  | fuel + 1, before, k =>
    match pager before with
    | Except.error e => Except.error (CrawlError.Rpc e)
    | Except.ok page =>
      if page.isEmpty then Except.ok ([], 0)
      else
        let results := fetchPagePar fetch page (sched k page.length)
        let succ := results.filterMap (fun p =>
          match p.2 with
          | Except.ok tx => some (p.1, tx)
          | Except.error _ => none)
        let failedCount := results.length - succ.length
        if succ.isEmpty then Except.error CrawlError.PageExhausted
        else if page.length < limit then Except.ok (succ, failedCount)
        else
          match page.getLast? with
          | none => Except.ok (succ, failedCount)
          | some lastSig =>
            match fetchLoop pager fetch sched limit fuel
                (some lastSig.signature) (k + 1) with
            | Except.error e => Except.error e
            | Except.ok (rest, restFailed) =>
              Except.ok (succ ++ rest, failedCount + restFailed)

/-- Modelled from the spec: `run()` — fetch all pages, then process the
fetched transactions into the labeled result buckets; fatal errors abort
the run and return no partial results (§4.1, §7). -/
def runCrawler (cfg : CrawlerCfg)
    (pager : Option Signature → Except String (List SigInfo))
    (fetch : Signature → Except String RawTransaction)
    (sched : Nat → Nat → List Nat) (limit : Nat) (fuel : Nat) :
    Except CrawlError (List (String × List PublicKey) × Nat) :=
  match fetchLoop pager fetch sched limit fuel none 0 with
  | Except.error e => Except.error e
  | Except.ok (txs, failedCount) => Except.ok (runResult cfg txs, failedCount)

/-- Modelled from the spec: the page size P=1000, the underlying RPC's
maximum (§4.1 step 1, `constants` module). -/
def signaturePageSize : Nat := 1000

/-- Modelled from the spec: the Candy-Machine-v2 program id consumed by the
`get_cmv2_mints` preset (opaque identifier). -/
def cmv2ProgramId : PublicKey := 42

/-- Modelled from the spec: the configuration used by the documented
`Crawler::get_cmv2_mints` preset — successful transactions of the CMV2
program, mint-instruction shape, and the two selectors labeled `mint` and
`metadata` (src/lib.rs lines 93-99). -/
def cmv2Cfg : CrawlerCfg :=
  { txFilters := [txHasProgramId cmv2ProgramId, successfulTxFilter],
    ixFilters := [ixNumberAccounts (NumberAccountsKind.equalTo 14)],
    selectors := [IxAccount.unparsed "mint" 5, IxAccount.unparsed "metadata" 4] }

/-- Modelled from the spec: `Crawler::get_cmv2_mints` — run the preset
configuration and return its labeled buckets (src/lib.rs lines 93-99). -/
def getCmv2Mints (pager : Option Signature → Except String (List SigInfo))
    (fetch : Signature → Except String RawTransaction) (fuel : Nat) :
    Except CrawlError (List (String × List PublicKey) × Nat) :=
  runCrawler cmv2Cfg pager fetch seqSched signaturePageSize fuel

/-! ## Helper lemmas on association lists and resolution -/

theorem assocLookup_eq_none_of_not_mem {κ α : Type} [BEq κ] [LawfulBEq κ]
    (k : κ) (row : List (κ × α)) (h : k ∉ row.map Prod.fst) :
    assocLookup k row = none := by
  induction row with
  | nil => rfl
  | cons p rest ih =>
    simp only [List.map_cons, List.mem_cons] at h
    push_neg at h
    simp only [assocLookup]
    rw [if_neg]
    · exact ih h.2
    · simp only [beq_iff_eq]
      exact fun hc => h.1 hc.symm

theorem assocLookup_isSome_of_mem {κ α : Type} [BEq κ] [LawfulBEq κ]
    (k : κ) (row : List (κ × α)) (h : k ∈ row.map Prod.fst) :
    ∃ v, assocLookup k row = some v := by
  induction row with
  | nil => simp at h
  | cons p rest ih =>
    simp only [assocLookup]
    by_cases hk : p.1 == k
    · exact ⟨p.2, by rw [if_pos hk]⟩
    · simp only [List.map_cons, List.mem_cons] at h
      rcases h with h | h
      · exact absurd (by simp [h]) hk
      · obtain ⟨v, hv⟩ := ih h
        exact ⟨v, by rw [if_neg hk]; exact hv⟩

theorem resolveRowAux_append (ins : NormalizedInstruction)
    (s₁ s₂ : List IxAccount) (acc : List (String × PublicKey)) :
    resolveRowAux ins (s₁ ++ s₂) acc =
      (resolveRowAux ins s₁ acc).bind (fun a => resolveRowAux ins s₂ a) := by
  induction s₁ generalizing acc with
  | nil => simp [resolveRowAux]
  | cons s rest ih =>
    simp only [List.cons_append, resolveRowAux]
    cases resolveKind acc ins s.kind with
    | none => rfl
    | some v => exact ih _

theorem resolveRowAux_extends (ins : NormalizedInstruction) :
    ∀ (sels : List IxAccount) (acc out : List (String × PublicKey)),
      resolveRowAux ins sels acc = some out → ∃ ext, out = acc ++ ext := by
  intro sels
  induction sels with
  | nil =>
    intro acc out h
    simp only [resolveRowAux, Option.some_inj] at h
    exact ⟨[], by simp [h.symm]⟩
  | cons s rest ih =>
    intro acc out h
    simp only [resolveRowAux] at h
    cases hv : resolveKind acc ins s.kind with
    | none => rw [hv] at h; exact absurd h (by simp)
    | some v =>
      rw [hv] at h
      obtain ⟨ext, hext⟩ := ih _ _ h
      exact ⟨(s.label, v) :: ext, by simp [hext]⟩

theorem resolveRowAux_labels (ins : NormalizedInstruction) :
    ∀ (sels : List IxAccount) (acc out : List (String × PublicKey)),
      resolveRowAux ins sels acc = some out →
      out.map Prod.fst = acc.map Prod.fst ++ sels.map (fun t => t.label) := by
  intro sels
  induction sels with
  | nil =>
    intro acc out h
    simp only [resolveRowAux, Option.some_inj] at h
    simp [h.symm]
  | cons s rest ih =>
    intro acc out h
    simp only [resolveRowAux] at h
    cases hv : resolveKind acc ins s.kind with
    | none => rw [hv] at h; exact absurd h (by simp)
    | some v =>
      rw [hv] at h
      have := ih _ _ h
      simp only [List.map_append, List.map_cons, List.map_nil] at this
      simp [this]

theorem resolveRow_labels (sels : List IxAccount) (ins : NormalizedInstruction)
    (row : List (String × PublicKey)) (h : resolveRow sels ins = some row) :
    row.map Prod.fst = sels.map (fun t => t.label) := by
  have := resolveRowAux_labels ins sels [] row h
  simpa using this

/-! ## C2: duplicate labels are rejected at configuration time -/

/-- C2: configuring a second selector whose label is already configured
fails with `ConfigError::DuplicateLabel` at configuration time; the builder
is pure, so no RPC call is involved.  The first conjunct rejects any
selector whose label is already appended; the second specializes this to
every pair appended via `add_account_index`. -/
theorem add_account_index_duplicate_label :
    (∀ (cfg : CrawlerCfg) (s : IxAccount),
        s.label ∈ cfg.selectors.map (fun t => t.label) →
        addAccountIndex cfg s = Except.error ConfigError.DuplicateLabel) ∧
    (∀ (cfg cfg' : CrawlerCfg) (s₁ s₂ : IxAccount),
        addAccountIndex cfg s₁ = Except.ok cfg' → s₂.label = s₁.label →
        addAccountIndex cfg' s₂ = Except.error ConfigError.DuplicateLabel) := by
  constructor
  · intro cfg s h
    simp [addAccountIndex, h]
  · intro cfg cfg' s₁ s₂ h hlab
    simp only [addAccountIndex] at h
    by_cases hmem : s₁.label ∈ cfg.selectors.map (fun t => t.label)
    · rw [if_pos hmem] at h
      exact absurd h (by simp)
    · rw [if_neg hmem, Except.ok.injEq] at h
      have hsel : cfg'.selectors = cfg.selectors ++ [s₁] := by rw [← h]
      simp [addAccountIndex, hsel, hlab]

/-- Witness for C2 at a concrete configuration: a second `"mint"` selector
is rejected. -/
theorem add_account_index_duplicate_label_witness :
    addAccountIndex
        { txFilters := [], ixFilters := [],
          selectors := [IxAccount.unparsed "mint" 5] }
        (IxAccount.unparsed "mint" 7)
      = Except.error ConfigError.DuplicateLabel :=
  add_account_index_duplicate_label.1
    { txFilters := [], ixFilters := [], selectors := [IxAccount.unparsed "mint" 5] }
    (IxAccount.unparsed "mint" 7) (by decide)

/-! ## C7: literal selector bounds safety -/

theorem resolveRowAux_literal_oob (ins : NormalizedInstruction) (i : Nat)
    (hi : ins.accounts.length ≤ i) (lab : String) :
    ∀ (pre post : List IxAccount) (acc : List (String × PublicKey)),
      resolveRowAux ins (pre ++ IxAccount.mk lab (SelectorKind.literal i) :: post) acc
        = none := by
  intro pre
  induction pre with
  | nil =>
    intro post acc
    simp [resolveRowAux, resolveKind, List.getElem?_eq_none hi]
  | cons s rest ih =>
    intro post acc
    simp only [List.cons_append, resolveRowAux]
    cases resolveKind acc ins s.kind with
    | none => rfl
    | some v => exact ih post _

/-- C7: a `Literal(index)` selector resolves to `instruction.accounts[index]`
when the index is in range, and resolution fails when it is out of range; in
that case the whole row fails and the instruction is skipped, appending to
no bucket. -/
theorem literal_selector_bounds (ins : NormalizedInstruction) (i : Nat)
    (acc : List (String × PublicKey)) (lab : String)
    (pre post : List IxAccount) (cfg : CrawlerCfg) :
    (i < ins.accounts.length →
        ∃ v, ins.accounts[i]? = some v ∧
          resolveKind acc ins (SelectorKind.literal i) = some v) ∧
    (ins.accounts.length ≤ i →
        resolveKind acc ins (SelectorKind.literal i) = none ∧
        resolveRow (pre ++ IxAccount.mk lab (SelectorKind.literal i) :: post) ins = none ∧
        (cfg.selectors = pre ++ IxAccount.mk lab (SelectorKind.literal i) :: post →
          processInstruction cfg ins = none)) := by
  constructor
  · intro h
    exact ⟨ins.accounts[i], List.getElem?_eq_getElem h, List.getElem?_eq_getElem h⟩
  · intro h
    have hrow : resolveRow (pre ++ IxAccount.mk lab (SelectorKind.literal i) :: post) ins
        = none := resolveRowAux_literal_oob ins i h lab pre post []
    refine ⟨by simp [resolveKind, List.getElem?_eq_none h], hrow, ?_⟩
    intro hsel
    unfold processInstruction
    rw [hsel]
    split
    · exact hrow
    · rfl

/-- Witness for C7 on a concrete two-account instruction: index 1 resolves
to the second account and index 5 fails, skipping the instruction. -/
theorem literal_selector_bounds_witness :
    (∃ v, ([(7 : PublicKey), 8] : List PublicKey)[1]? = some v ∧
        resolveKind []
          { programId := 1, accounts := [7, 8], data := [], origin := Origin.outer 0 }
          (SelectorKind.literal 1) = some v) ∧
    resolveRow [IxAccount.mk "a" (SelectorKind.literal 5)]
        { programId := 1, accounts := [7, 8], data := [], origin := Origin.outer 0 }
      = none := by
  have h := literal_selector_bounds
    { programId := 1, accounts := [7, 8], data := [], origin := Origin.outer 0 }
    1 [] "a" [] [] { txFilters := [], ixFilters := [], selectors := [] }
  have h5 := literal_selector_bounds
    { programId := 1, accounts := [7, 8], data := [], origin := Origin.outer 0 }
    5 [] "a" [] [] { txFilters := [], ixFilters := [], selectors := [] }
  exact ⟨h.1 (by decide), (h5.2 (by decide)).2.1⟩

/-! ## C6: named-selector resolution locality -/

/-- C6: a `Named(l)` selector resolves from, and only from, the pairs
already resolved for earlier selectors on the same instruction during the
same pass: when the row resolves, the value bound to the named selector's
label is exactly the value that label `l` received from the earlier
selectors of this instruction; when `l` is not an earlier label the whole
row fails; and a failed row skips the instruction, so no label's bucket
receives a value for it. -/
theorem named_selector_locality (pre post : List IxAccount) (lab l : String)
    (ins : NormalizedInstruction) (cfg : CrawlerCfg) :
    (∀ row, resolveRow (pre ++ IxAccount.mk lab (SelectorKind.named l) :: post) ins
        = some row →
      ∃ rowPre v rowRest,
        resolveRow pre ins = some rowPre ∧
        assocLookup l rowPre = some v ∧
        row = rowPre ++ (lab, v) :: rowRest) ∧
    (l ∉ pre.map (fun t => t.label) →
      resolveRow (pre ++ IxAccount.mk lab (SelectorKind.named l) :: post) ins = none) ∧
    (resolveRow (pre ++ IxAccount.mk lab (SelectorKind.named l) :: post) ins = none →
      cfg.selectors = pre ++ IxAccount.mk lab (SelectorKind.named l) :: post →
      processInstruction cfg ins = none) := by
  refine ⟨?_, ?_, ?_⟩
  · intro row h
    rw [resolveRow, resolveRowAux_append] at h
    cases hp : resolveRowAux ins pre [] with
    | none => rw [hp] at h; exact absurd h (by simp)
    | some rowPre =>
      rw [hp] at h
      simp only [Option.some_bind, resolveRowAux, resolveKind] at h
      cases hv : assocLookup l rowPre with
      | none => rw [hv] at h; exact absurd h (by simp)
      | some v =>
        rw [hv] at h
        obtain ⟨ext, hext⟩ := resolveRowAux_extends ins post _ _ h
        exact ⟨rowPre, v, ext, hp, hv, by simp [hext]⟩
  · intro hl
    rw [resolveRow, resolveRowAux_append]
    cases hp : resolveRowAux ins pre [] with
    | none => rfl
    | some rowPre =>
      have hkeys : rowPre.map Prod.fst = pre.map (fun t => t.label) := by
        simpa using resolveRowAux_labels ins pre [] rowPre hp
      have : assocLookup l rowPre = none :=
        assocLookup_eq_none_of_not_mem l rowPre (hkeys ▸ hl)
      simp [resolveRowAux, resolveKind, this]
  · intro hnone hsel
    unfold processInstruction
    rw [hsel]
    split
    · exact hnone
    · rfl

/-- Witness for C6 at a concrete instruction: with selectors
`[mint := Literal 0, alias := Named "mint"]` the alias is bound to the value
`mint` resolved on the same instruction, and a `Named` reference to an
absent label fails. -/
theorem named_selector_locality_witness :
    (∃ rowPre v rowRest,
        resolveRow [IxAccount.unparsed "mint" 0]
          { programId := 1, accounts := [7, 8], data := [], origin := Origin.outer 0 }
          = some rowPre ∧
        assocLookup "mint" rowPre = some v ∧
        [("mint", (7 : PublicKey)), ("alias", 7)] = rowPre ++ ("alias", v) :: rowRest) ∧
    resolveRow [IxAccount.unparsed "mint" 0, IxAccount.mk "alias" (SelectorKind.named "meta")]
        { programId := 1, accounts := [7, 8], data := [], origin := Origin.outer 0 }
      = none := by
  have h := named_selector_locality [IxAccount.unparsed "mint" 0] [] "alias" "mint"
    { programId := 1, accounts := [7, 8], data := [], origin := Origin.outer 0 }
    { txFilters := [], ixFilters := [], selectors := [] }
  have h2 := named_selector_locality [IxAccount.unparsed "mint" 0] [] "alias" "meta"
    { programId := 1, accounts := [7, 8], data := [], origin := Origin.outer 0 }
    { txFilters := [], ixFilters := [], selectors := [] }
  exact ⟨h.1 [("mint", 7), ("alias", 7)] (by decide), h2.2.1 (by decide)⟩

/-! ## Helper lemmas on joinMap and filterMap -/

theorem mem_joinMap {f : α → List β} {b : β} :
    ∀ {l : List α}, b ∈ joinMap f l ↔ ∃ a ∈ l, b ∈ f a := by
  intro l
  induction l with
  | nil => simp [joinMap]
  | cons a t ih =>
    simp only [joinMap, List.mem_append, ih, List.mem_cons]
    constructor
    · rintro (h | ⟨a', ha', hb⟩)
      · exact ⟨a, Or.inl rfl, h⟩
      · exact ⟨a', Or.inr ha', hb⟩
    · rintro ⟨a', ha' | ha', hb⟩
      · exact Or.inl (ha' ▸ hb)
      · exact Or.inr ⟨a', ha', hb⟩

theorem joinMap_congr {f g : α → List β} :
    ∀ {l : List α}, (∀ a ∈ l, f a = g a) → joinMap f l = joinMap g l := by
  intro l
  induction l with
  | nil => intro; rfl
  | cons a t ih =>
    intro h
    simp only [joinMap]
    rw [h a (List.mem_cons_self a t), ih (fun x hx => h x (List.mem_cons_of_mem a hx))]

theorem joinMap_map_eq (g : β → List γ) (h : α → β) :
    ∀ (l : List α), joinMap g (l.map h) = joinMap (fun a => g (h a)) l := by
  intro l
  induction l with
  | nil => rfl
  | cons a t ih => simp only [List.map_cons, joinMap, ih]

theorem map_joinMap (g : β → γ) (f : α → List β) :
    ∀ (l : List α), (joinMap f l).map g = joinMap (fun a => (f a).map g) l := by
  intro l
  induction l with
  | nil => rfl
  | cons a t ih => simp only [joinMap, List.map_append, ih]

theorem joinMap_append (g : β → List γ) :
    ∀ (l₁ l₂ : List β), joinMap g (l₁ ++ l₂) = joinMap g l₁ ++ joinMap g l₂ := by
  intro l₁ l₂
  induction l₁ with
  | nil => rfl
  | cons b u ih =>
    simp only [List.cons_append, joinMap, List.append_eq, ih, List.append_assoc]

theorem joinMap_joinMap (g : β → List γ) (f : α → List β) :
    ∀ (l : List α), joinMap g (joinMap f l) = joinMap (fun a => joinMap g (f a)) l := by
  intro l
  induction l with
  | nil => rfl
  | cons a t ih => simp only [joinMap, joinMap_append, ih]

theorem joinMap_filterMap (g : β → List γ) (f : α → Option β) :
    ∀ (l : List α),
      joinMap g (l.filterMap f) =
        joinMap (fun a => match f a with | some b => g b | none => []) l := by
  intro l
  induction l with
  | nil => rfl
  | cons a t ih =>
    cases hf : f a with
    | none => simp [List.filterMap_cons, hf, joinMap, ih]
    | some b => simp [List.filterMap_cons, hf, joinMap, ih]

theorem joinMap_sublist {f g : α → List β} :
    ∀ (l : List α), (∀ a ∈ l, (f a).Sublist (g a)) →
      (joinMap f l).Sublist (joinMap g l) := by
  intro l
  induction l with
  | nil => intro; exact List.Sublist.refl _
  | cons a t ih =>
    intro h
    simp only [joinMap]
    exact (h a (List.mem_cons_self a t)).append
      (ih (fun x hx => h x (List.mem_cons_of_mem a hx)))

theorem filterMap_sublist_of_pointwise {f g : α → Option β} :
    ∀ (l : List α), (∀ a ∈ l, f a = g a ∨ f a = none) →
      (l.filterMap f).Sublist (l.filterMap g) := by
  intro l
  induction l with
  | nil => intro; exact List.Sublist.refl _
  | cons a t ih =>
    intro h
    have ht := ih (fun x hx => h x (List.mem_cons_of_mem a hx))
    rcases h a (List.mem_cons_self a t) with ha | ha
    · rw [List.filterMap_cons, List.filterMap_cons, ha]
      cases g a with
      | none => exact ht
      | some b => exact ht.cons₂ b
    · rw [List.filterMap_cons, List.filterMap_cons, ha]
      cases g a with
      | none => exact ht
      | some b => exact ht.cons b

theorem filterMap_allSome_getElem? {f : α → Option β} :
    ∀ (l : List α), (∀ a ∈ l, (f a).isSome) →
      ∀ k : Nat, (l.filterMap f)[k]? = l[k]?.bind f := by
  intro l
  induction l with
  | nil => intro _ k; simp
  | cons a t ih =>
    intro h k
    cases hf : f a with
    | none =>
      have := h a (List.mem_cons_self a t)
      rw [hf] at this
      exact absurd this (by simp)
    | some b =>
      have ht := ih (fun x hx => h x (List.mem_cons_of_mem a hx))
      rw [List.filterMap_cons, hf]
      cases k with
      | zero => simp [hf]
      | succ k => simp [ht k]

theorem filterMap_allSome_length {f : α → Option β} :
    ∀ (l : List α), (∀ a ∈ l, (f a).isSome) →
      (l.filterMap f).length = l.length := by
  intro l
  induction l with
  | nil => intro; rfl
  | cons a t ih =>
    intro h
    cases hf : f a with
    | none =>
      have := h a (List.mem_cons_self a t)
      rw [hf] at this
      exact absurd this (by simp)
    | some b =>
      rw [List.filterMap_cons, hf]
      simp [ih (fun x hx => h x (List.mem_cons_of_mem a hx))]

/-! ## C1: row-alignment of result buckets -/

theorem crawlRows_row_labels (cfg : CrawlerCfg)
    (txs : List (Signature × RawTransaction)) :
    ∀ r ∈ crawlRows cfg txs,
      (r.2.2).map Prod.fst = cfg.selectors.map (fun t => t.label) := by
  intro r hr
  rw [crawlRows] at hr
  obtain ⟨st, _, hr⟩ := mem_joinMap.1 hr
  cases hn : normalizeTx st.2 with
  | none => rw [hn] at hr; simp at hr
  | some ntx =>
    rw [hn] at hr
    obtain ⟨p, hp, rfl⟩ := List.mem_map.1 hr
    rw [processTx] at hp
    by_cases htx : cfg.txFilters.all (fun f => f ntx)
    · rw [if_pos htx] at hp
      obtain ⟨ins, _, hsome⟩ := List.mem_filterMap.1 hp
      cases hpi : processInstruction cfg ins with
      | none => rw [hpi] at hsome; exact absurd hsome (by simp)
      | some row =>
        rw [hpi] at hsome
        have hp2 : p = (ins.origin, row) := by simpa using hsome.symm
        rw [processInstruction] at hpi
        by_cases hix : cfg.ixFilters.all (fun f => f ins)
        · rw [if_pos hix] at hpi
          have := resolveRow_labels cfg.selectors ins row hpi
          rw [hp2]
          simpa using this
        · rw [if_neg hix] at hpi
          exact absurd hpi (by simp)
    · rw [if_neg htx] at hp
      simp at hp

theorem bucket_lookup_isSome (cfg : CrawlerCfg)
    (txs : List (Signature × RawTransaction)) (l : String)
    (hl : l ∈ cfg.selectors.map (fun t => t.label)) :
    ∀ r ∈ crawlRows cfg txs, (assocLookup l r.2.2).isSome := by
  intro r hr
  have hkeys := crawlRows_row_labels cfg txs r hr
  obtain ⟨v, hv⟩ := assocLookup_isSome_of_mem l r.2.2 (hkeys ▸ hl)
  simp [hv]

/-- C1: for every pair of configured labels the buckets have the same
length (the number of surviving instructions), and the k-th element of each
bucket is the value that surviving row k — one surviving instruction,
identified by its signature and origin — resolved for the label. -/
theorem crawler_row_alignment (cfg : CrawlerCfg)
    (txs : List (Signature × RawTransaction)) (a b : String)
    (ha : a ∈ cfg.selectors.map (fun t => t.label))
    (hb : b ∈ cfg.selectors.map (fun t => t.label)) :
    (bucket cfg txs a).length = (bucket cfg txs b).length ∧
    (bucket cfg txs a).length = (crawlRows cfg txs).length ∧
    ∀ (k : Nat) (r : Signature × Origin × List (String × PublicKey)),
      (crawlRows cfg txs)[k]? = some r →
      (bucket cfg txs a)[k]? = assocLookup a r.2.2 ∧
      (bucket cfg txs b)[k]? = assocLookup b r.2.2 := by
  have hsa := bucket_lookup_isSome cfg txs a ha
  have hsb := bucket_lookup_isSome cfg txs b hb
  have hla : (bucket cfg txs a).length = (crawlRows cfg txs).length :=
    filterMap_allSome_length _ hsa
  have hlb : (bucket cfg txs b).length = (crawlRows cfg txs).length :=
    filterMap_allSome_length _ hsb
  refine ⟨hla.trans hlb.symm, hla, ?_⟩
  intro k r hk
  constructor
  · rw [bucket, filterMap_allSome_getElem? _ hsa k, hk, Option.some_bind]
  · rw [bucket, filterMap_allSome_getElem? _ hsb k, hk, Option.some_bind]

/-- A concrete successful transaction used by witnesses: three account
keys, one outer instruction referencing keys 1 and 2. -/
def exampleRawTx : RawTransaction :=
  { status := TxStatus.success, accountKeys := [10, 11, 12],
    outerInstructions := [{ programIdIndex := 0, accounts := [1, 2], data := [] }],
    innerGroups := [] }

/-- A concrete configuration used by witnesses: no filters, two literal
selectors labeled `mint` and `meta`. -/
def exampleCfg : CrawlerCfg :=
  { txFilters := [], ixFilters := [],
    selectors := [IxAccount.unparsed "mint" 0, IxAccount.unparsed "meta" 1] }

/-- A concrete fetched-transaction list used by witnesses. -/
def exampleTxs : List (Signature × RawTransaction) := [(5, exampleRawTx)]

/-- Witness for C1 on a concrete run: the `mint` and `meta` buckets are
aligned. -/
theorem crawler_row_alignment_witness :
    (bucket exampleCfg exampleTxs "mint").length
      = (bucket exampleCfg exampleTxs "meta").length ∧
    (bucket exampleCfg exampleTxs "mint")[0]?
      = assocLookup "mint" [("mint", (11 : PublicKey)), ("meta", 12)] ∧
    (bucket exampleCfg exampleTxs "meta")[0]?
      = assocLookup "meta" [("mint", (11 : PublicKey)), ("meta", 12)] := by
  have h := crawler_row_alignment exampleCfg exampleTxs "mint" "meta"
    (by decide) (by decide)
  have hk := h.2.2 0 (5, Origin.outer 0, [("mint", 11), ("meta", 12)]) (by decide)
  exact ⟨h.1, hk.1, hk.2⟩

/-! ## C5: filter monotonicity -/

theorem addTxFilter_txFilters (cfg : CrawlerCfg) (g : TxFilter) :
    (addTxFilter cfg g).txFilters = cfg.txFilters ++ [g] := rfl

theorem processInstruction_addTxFilter (cfg : CrawlerCfg) (g : TxFilter)
    (ins : NormalizedInstruction) :
    processInstruction (addTxFilter cfg g) ins = processInstruction cfg ins := rfl

theorem addIxFilter_ixFilters (cfg : CrawlerCfg) (g : IxFilter) :
    (addIxFilter cfg g).ixFilters = cfg.ixFilters ++ [g] := rfl

theorem processTx_addTxFilter_sublist (cfg : CrawlerCfg) (g : TxFilter)
    (ntx : NormalizedTx) :
    (processTx (addTxFilter cfg g) ntx).Sublist (processTx cfg ntx) := by
  simp only [processTx, addTxFilter_txFilters, processInstruction_addTxFilter]
  by_cases hall : (cfg.txFilters ++ [g]).all (fun f => f ntx)
  · have h1 : cfg.txFilters.all (fun f => f ntx) := by
      simp only [List.all_append, Bool.and_eq_true] at hall
      exact hall.1
    rw [if_pos hall, if_pos h1]
  · rw [if_neg hall]
    exact List.nil_sublist _

theorem processTx_addIxFilter_sublist (cfg : CrawlerCfg) (g : IxFilter)
    (ntx : NormalizedTx) :
    (processTx (addIxFilter cfg g) ntx).Sublist (processTx cfg ntx) := by
  have htxf : (addIxFilter cfg g).txFilters = cfg.txFilters := rfl
  have hsel : (addIxFilter cfg g).selectors = cfg.selectors := rfl
  simp only [processTx, htxf]
  by_cases hall : cfg.txFilters.all (fun f => f ntx)
  · rw [if_pos hall, if_pos hall]
    apply filterMap_sublist_of_pointwise
    intro ins _
    by_cases hix : (cfg.ixFilters ++ [g]).all (fun f => f ins)
    · left
      have h1 : cfg.ixFilters.all (fun f => f ins) := by
        simp only [List.all_append, Bool.and_eq_true] at hix
        exact hix.1
      simp only [processInstruction, addIxFilter_ixFilters, hsel,
        if_pos hix, if_pos h1]
    · right
      simp only [processInstruction, addIxFilter_ixFilters, if_neg hix]
      rfl
  · rw [if_neg hall, if_neg hall]

theorem crawlRows_sublist_of_processTx (cfg' cfg : CrawlerCfg)
    (txs : List (Signature × RawTransaction))
    (h : ∀ ntx, (processTx cfg' ntx).Sublist (processTx cfg ntx)) :
    (crawlRows cfg' txs).Sublist (crawlRows cfg txs) := by
  rw [crawlRows, crawlRows]
  apply joinMap_sublist
  intro st _
  cases normalizeTx st.2 with
  | none => exact List.Sublist.refl _
  | some ntx => exact (h ntx).map _

/-- C5: appending one more transaction-level or instruction-level filter
yields, for every label, a bucket that is a subsequence of the bucket
produced without that filter — entries can only be removed, never added or
reordered. -/
theorem filter_monotonic (cfg : CrawlerCfg) (g : TxFilter) (g' : IxFilter)
    (txs : List (Signature × RawTransaction)) (l : String) :
    (bucket (addTxFilter cfg g) txs l).Sublist (bucket cfg txs l) ∧
    (bucket (addIxFilter cfg g') txs l).Sublist (bucket cfg txs l) := by
  constructor
  · exact (crawlRows_sublist_of_processTx _ cfg txs
      (processTx_addTxFilter_sublist cfg g)).filterMap _
  · exact (crawlRows_sublist_of_processTx _ cfg txs
      (processTx_addIxFilter_sublist cfg g')).filterMap _

/-! ## C3: output order -/

/-- The flat sequence of entries appended to the buckets over a run, in
append order: one `(signature, origin, label, key)` tuple per appended
value. -/
def appendTrace (cfg : CrawlerCfg) (txs : List (Signature × RawTransaction)) :
    List (Signature × Origin × String × PublicKey) :=
  joinMap (fun r => (r.2.2).map (fun p => (r.1, r.2.1, p.1, p.2)))
    (crawlRows cfg txs)

/-- Modelled from the spec: the (signature × outer-then-inner instruction ×
selector insertion order) lexicographic enumeration of P4, written directly
as three nested loops over the page-ordered transactions, the normalized
instruction list and the configured selectors. -/
def lexKeyEnum (cfg : CrawlerCfg) (txs : List (Signature × RawTransaction)) :
    List (Signature × Origin × String) :=
  joinMap (fun st =>
    match normalizeTx st.2 with
    | none => []
    | some ntx =>
      joinMap (fun ins => cfg.selectors.map (fun s => (st.1, ins.origin, s.label)))
        ntx.instructions) txs

theorem map_keys_eq {γ : Type} (row : List (String × PublicKey))
    (sels : List IxAccount)
    (h : row.map Prod.fst = sels.map (fun t => t.label)) (g : String → γ) :
    row.map (fun q => g q.1) = sels.map (fun s => g s.label) := by
  have h1 : row.map (fun q => g q.1) = (row.map Prod.fst).map g := by
    rw [List.map_map]
    rfl
  have h2 : sels.map (fun s => g s.label)
      = (sels.map (fun t => t.label)).map g := by
    rw [List.map_map]
    rfl
  rw [h1, h2, h]

/-- C3: when every transaction-level and instruction-level filter admits
everything, the keys of the appended entries follow the lexicographic
(signature × outer-then-inner × selector) enumeration: they always form a
subsequence of it (instructions whose selectors fail to resolve are
skipped), and they equal it exactly when every instruction's selectors
resolve. -/
theorem output_order (cfg : CrawlerCfg) (txs : List (Signature × RawTransaction))
    (htx : ∀ f ∈ cfg.txFilters, ∀ t, f t = true)
    (hix : ∀ f ∈ cfg.ixFilters, ∀ i, f i = true) :
    ((appendTrace cfg txs).map (fun e => (e.1, e.2.1, e.2.2.1))).Sublist
      (lexKeyEnum cfg txs) ∧
    ((∀ st ∈ txs, ∀ ntx, normalizeTx st.2 = some ntx →
        ∀ ins ∈ ntx.instructions, (resolveRow cfg.selectors ins).isSome) →
      (appendTrace cfg txs).map (fun e => (e.1, e.2.1, e.2.2.1))
        = lexKeyEnum cfg txs) := by
  have hall_tx : ∀ ntx, cfg.txFilters.all (fun f => f ntx) = true :=
    fun ntx => List.all_eq_true.2 (fun f hf => htx f hf ntx)
  have hall_ix : ∀ ins, cfg.ixFilters.all (fun f => f ins) = true :=
    fun ins => List.all_eq_true.2 (fun f hf => hix f hf ins)
  have hkey : (appendTrace cfg txs).map (fun e => (e.1, e.2.1, e.2.2.1))
      = joinMap (fun st =>
          match normalizeTx st.2 with
          | none => []
          | some ntx =>
            joinMap (fun ins =>
              match resolveRow cfg.selectors ins with
              | some row => row.map (fun q => (st.1, ins.origin, q.1))
              | none => []) ntx.instructions) txs := by
    rw [appendTrace, map_joinMap, crawlRows, joinMap_joinMap]
    apply joinMap_congr
    intro st _
    cases hn : normalizeTx st.2 with
    | none => simp only [hn, joinMap]
    | some ntx =>
      simp only [hn]
      rw [joinMap_map_eq, processTx, if_pos (hall_tx ntx), joinMap_filterMap]
      apply joinMap_congr
      intro ins _
      rw [processInstruction, if_pos (hall_ix ins)]
      cases hr : resolveRow cfg.selectors ins with
      | none => rfl
      | some row =>
        simp only [Option.map_some', List.map_map]
        rfl
  constructor
  · rw [hkey, lexKeyEnum]
    apply joinMap_sublist
    intro st _
    cases hn : normalizeTx st.2 with
    | none => simp only [hn]; exact List.nil_sublist _
    | some ntx =>
      simp only [hn]
      apply joinMap_sublist
      intro ins _
      cases hr : resolveRow cfg.selectors ins with
      | none => simp only [hr]; exact List.nil_sublist _
      | some row =>
        simp only [hr]
        rw [map_keys_eq row cfg.selectors
          (resolveRow_labels cfg.selectors ins row hr)
          (fun l => (st.1, ins.origin, l))]
  · intro hres
    rw [hkey, lexKeyEnum]
    apply joinMap_congr
    intro st hst
    cases hn : normalizeTx st.2 with
    | none => simp only [hn]
    | some ntx =>
      simp only [hn]
      apply joinMap_congr
      intro ins hins
      cases hr : resolveRow cfg.selectors ins with
      | none =>
        have := hres st hst ntx hn ins hins
        rw [hr] at this
        exact absurd this (by simp)
      | some row =>
        simp only [hr]
        exact map_keys_eq row cfg.selectors
          (resolveRow_labels cfg.selectors ins row hr)
          (fun l => (st.1, ins.origin, l))

/-- Witness for C3 on a concrete run with no filters: the appended keys
equal the lexicographic enumeration. -/
theorem output_order_witness :
    (appendTrace exampleCfg exampleTxs).map (fun e => (e.1, e.2.1, e.2.2.1))
      = lexKeyEnum exampleCfg exampleTxs :=
  (output_order exampleCfg exampleTxs (by simp [exampleCfg])
    (by simp [exampleCfg])).2 (by decide)

/-! ## C4: determinism of run() under fetch parallelism -/

theorem filterMap_congr_mem {f g : α → Option β} :
    ∀ (l : List α), (∀ a ∈ l, f a = g a) → l.filterMap f = l.filterMap g := by
  intro l
  induction l with
  | nil => intro; rfl
  | cons a t ih =>
    intro h
    rw [List.filterMap_cons, List.filterMap_cons, h a (List.mem_cons_self a t),
      ih (fun x hx => h x (List.mem_cons_of_mem a hx))]

theorem assocLookup_completed (page : List SigInfo)
    (fetch : Signature → Except String RawTransaction) :
    ∀ (sl : List Nat) (i : Nat) (s : SigInfo), i ∈ sl → page[i]? = some s →
      assocLookup i (sl.filterMap (fun j =>
          (page[j]?).map (fun t => (j, (t.signature, fetch t.signature)))))
        = some (s.signature, fetch s.signature) := by
  intro sl
  induction sl with
  | nil => intro i s hi _; simp at hi
  | cons j rest ih =>
    intro i s hi hs
    rw [List.filterMap_cons]
    cases hj : page[j]? with
    | none =>
      simp only [Option.map_none']
      rcases List.mem_cons.1 hi with rfl | hi2
      · rw [hs] at hj; exact absurd hj (by simp)
      · exact ih i s hi2 hs
    | some t =>
      simp only [Option.map_some']
      rw [assocLookup]
      by_cases hij : (j == i)
      · have hji : j = i := by simpa using hij
        subst hji
        rw [if_pos hij]
        rw [hs] at hj
        rw [Option.some_inj.1 hj]
      · rw [if_neg hij]
        rcases List.mem_cons.1 hi with rfl | hi2
        · exact absurd (by simp) hij
        · exact ih i s hi2 hs

theorem range_filterMap_getElem {β : Type} (g : SigInfo → β) :
    ∀ (page : List SigInfo),
      (List.range page.length).filterMap (fun i => (page[i]?).map g)
        = page.map g := by
  intro page
  induction page with
  | nil => rfl
  | cons a t ih =>
    rw [List.length_cons, List.range_succ_eq_map, List.filterMap_cons]
    simp only [List.getElem?_cons_zero, Option.map_some']
    rw [List.filterMap_map, List.map_cons]
    rw [show ((fun i => ((a :: t)[i]?).map g) ∘ Nat.succ)
        = (fun i => (t[i]?).map g) from by
      funext i
      rw [Function.comp_apply, List.getElem?_cons_succ]]
    rw [ih]

theorem fetchPagePar_perm (fetch : Signature → Except String RawTransaction)
    (page : List SigInfo) (sched : List Nat)
    (h : sched.Perm (List.range page.length)) :
    fetchPagePar fetch page sched
      = page.map (fun s => (s.signature, fetch s.signature)) := by
  rw [fetchPagePar]
  rw [filterMap_congr_mem (List.range page.length) (g := fun i =>
    (page[i]?).map (fun s => (s.signature, fetch s.signature)))]
  · exact range_filterMap_getElem _ page
  · intro i hi
    have hi2 : i < page.length := List.mem_range.1 hi
    rw [List.getElem?_eq_getElem hi2, Option.map_some']
    exact assocLookup_completed page fetch sched i _ (h.mem_iff.2 hi)
      (List.getElem?_eq_getElem hi2)

theorem fetchLoop_sched_irrel
    (pager : Option Signature → Except String (List SigInfo))
    (fetch : Signature → Except String RawTransaction) (limit : Nat)
    (sched : Nat → Nat → List Nat)
    (hs : ∀ k n, (sched k n).Perm (List.range n)) :
    ∀ (fuel : Nat) (before : Option Signature) (k : Nat),
      fetchLoop pager fetch sched limit fuel before k
        = fetchLoop pager fetch seqSched limit fuel before k := by
  intro fuel
  induction fuel with
  | zero => intro before k; rfl
  | succ fuel ih =>
    intro before k
    rw [fetchLoop, fetchLoop]
    cases pager before with
    | error e => rfl
    | ok page =>
      have hres : fetchPagePar fetch page (sched k page.length)
          = fetchPagePar fetch page (seqSched k page.length) := by
        rw [fetchPagePar_perm fetch page _ (hs k page.length),
          fetchPagePar_perm fetch page _
            (show (seqSched k page.length).Perm (List.range page.length) from
              List.Perm.refl _)]
      simp only [hres, ih]

/-- C4: for a fixed pager and fetcher (fixed RPC responses), two executions
of `run()` produce identical result buckets for any two fetch-dispatch
schedules that each cover the page — the results are re-ordered to page
order before processing, so the parallelism setting cannot change the
buckets. -/
theorem run_deterministic (cfg : CrawlerCfg)
    (pager : Option Signature → Except String (List SigInfo))
    (fetch : Signature → Except String RawTransaction)
    (limit fuel : Nat) (sched1 sched2 : Nat → Nat → List Nat)
    (h1 : ∀ k n, (sched1 k n).Perm (List.range n))
    (h2 : ∀ k n, (sched2 k n).Perm (List.range n)) :
    runCrawler cfg pager fetch sched1 limit fuel
      = runCrawler cfg pager fetch sched2 limit fuel := by
  rw [runCrawler, runCrawler,
    fetchLoop_sched_irrel pager fetch limit sched1 h1 fuel none 0,
    fetchLoop_sched_irrel pager fetch limit sched2 h2 fuel none 0]

/-- A reversed-order dispatch schedule: all fetches of a page complete in
reverse page order. -/
def revSched : Nat → Nat → List Nat := fun _ n => (List.range n).reverse

/-- A concrete one-page pager used by witnesses. -/
def examplePager : Option Signature → Except String (List SigInfo) :=
  fun b =>
    match b with
    | none => Except.ok [{ signature := 5, slot := 1, err := none, blockTime := none }]
    | some _ => Except.ok []

/-- A concrete always-succeeding fetcher used by witnesses. -/
def exampleFetch : Signature → Except String RawTransaction :=
  fun _ => Except.ok exampleRawTx

/-- Witness for C4: reverse-order completion gives the same run result as
sequential completion on a concrete run. -/
theorem run_deterministic_witness :
    runCrawler exampleCfg examplePager exampleFetch revSched 1000 2
      = runCrawler exampleCfg examplePager exampleFetch seqSched 1000 2 :=
  run_deterministic exampleCfg examplePager exampleFetch 1000 2 revSched seqSched
    (fun _ n => List.reverse_perm (List.range n)) (fun _ _ => List.Perm.refl _)

/-! ## C9: failure semantics of run() -/

/-- The successfully fetched transactions of one page, in page order. -/
def pageSuccesses (fetch : Signature → Except String RawTransaction)
    (page : List SigInfo) : List (Signature × RawTransaction) :=
  page.filterMap (fun s =>
    match fetch s.signature with
    | Except.ok tx => some (s.signature, tx)
    | Except.error _ => none)

theorem pageSuccesses_eq_filter (fetch : Signature → Except String RawTransaction)
    (page : List SigInfo) :
    (page.map (fun s => (s.signature, fetch s.signature))).filterMap (fun p =>
        match p.2 with
        | Except.ok tx => some (p.1, tx)
        | Except.error _ => none)
      = pageSuccesses fetch page := by
  rw [List.filterMap_map, pageSuccesses]
  rfl

theorem pageSuccesses_eq_nil (fetch : Signature → Except String RawTransaction)
    (page : List SigInfo)
    (h : ∀ s ∈ page, ∃ msg, fetch s.signature = Except.error msg) :
    pageSuccesses fetch page = [] := by
  rw [pageSuccesses, List.filterMap_eq_nil_iff]
  intro s hs
  obtain ⟨msg, hmsg⟩ := h s hs
  rw [hmsg]

theorem fetchLoop_ok_page
    (pager : Option Signature → Except String (List SigInfo))
    (fetch : Signature → Except String RawTransaction)
    (sched : Nat → Nat → List Nat) (limit fuel : Nat)
    (before : Option Signature) (k : Nat) (page : List SigInfo)
    (h : pager before = Except.ok page) :
    fetchLoop pager fetch sched limit (fuel + 1) before k =
      (if page.isEmpty then Except.ok ([], 0)
       else
        let results := fetchPagePar fetch page (sched k page.length)
        let succ := results.filterMap (fun p =>
          match p.2 with
          | Except.ok tx => some (p.1, tx)
          | Except.error _ => none)
        let failedCount := results.length - succ.length
        if succ.isEmpty then Except.error CrawlError.PageExhausted
        else if page.length < limit then Except.ok (succ, failedCount)
        else
          match page.getLast? with
          | none => Except.ok (succ, failedCount)
          | some lastSig =>
            match fetchLoop pager fetch sched limit fuel
                (some lastSig.signature) (k + 1) with
            | Except.error e => Except.error e
            | Except.ok (rest, restFailed) =>
              Except.ok (succ ++ rest, failedCount + restFailed)) := by
  rw [fetchLoop, h]

/-- Modelled from the spec: the cursor passed to the next signature-page
request — the oldest signature of the page just processed (§4.1 step 1). -/
def nextCursor (page : List SigInfo) (before : Option Signature) :
    Option Signature :=
  match page.getLast? with
  | none => before
  | some lastSig => some lastSig.signature

/-- `pagerPath pager limit before pages after`: starting from cursor
`before`, the pager answers the run's successive requests with exactly the
full pages of `pages` (each of length `limit`), each following request
using the previous page's oldest signature as its cursor; `after` is the
cursor reached after the last page.  This describes an arbitrary
already-processed prefix of a run. -/
def pagerPath (pager : Option Signature → Except String (List SigInfo))
    (limit : Nat) :
    Option Signature → List (List SigInfo) → Option Signature → Prop
  | before, [], after => after = before
  | before, page :: rest, after =>
    pager before = Except.ok page ∧ page.length = limit ∧
    pagerPath pager limit (nextCursor page before) rest after

/-- The total number of failed (skipped) fetches over a list of pages. -/
def failTally (fetch : Signature → Except String RawTransaction)
    (pages : List (List SigInfo)) : Nat :=
  (pages.map (fun p => p.length - (pageSuccesses fetch p).length)).sum

/-- Processing a prefix of full pages, each with at least one successful
fetch, reduces the run to its suffix: an error of the suffix aborts the
whole run with the same error, discarding the prefix's fetched
transactions, while a successful suffix is prepended with the prefix's
page-ordered successes and failure count. -/
theorem fetchLoop_prefix
    (pager : Option Signature → Except String (List SigInfo))
    (fetch : Signature → Except String RawTransaction)
    (sched : Nat → Nat → List Nat) (limit : Nat)
    (hs : ∀ k n, (sched k n).Perm (List.range n)) (hlim : 0 < limit) :
    ∀ (pages : List (List SigInfo)) (before after : Option Signature)
      (fuel k : Nat),
      pagerPath pager limit before pages after →
      (∀ page ∈ pages, pageSuccesses fetch page ≠ []) →
      fetchLoop pager fetch sched limit (pages.length + fuel) before k
        = match fetchLoop pager fetch sched limit fuel after
              (k + pages.length) with
          | Except.error err => Except.error err
          | Except.ok (txs, cnt) =>
            Except.ok (joinMap (fun p => pageSuccesses fetch p) pages ++ txs,
              failTally fetch pages + cnt) := by
  intro pages
  induction pages with
  | nil =>
    intro before after fuel k hpath _
    simp only [pagerPath] at hpath
    rw [hpath]
    simp only [List.length_nil, Nat.zero_add, Nat.add_zero]
    cases hfl : fetchLoop pager fetch sched limit fuel before k with
    | error err => rfl
    | ok p =>
      obtain ⟨txs, cnt⟩ := p
      simp [joinMap, failTally]
  | cons page rest ih =>
    intro before after fuel k hpath hgood
    simp only [pagerPath] at hpath
    obtain ⟨hpg, hlen, hrest⟩ := hpath
    have hpne : page ≠ [] := by
      intro hc
      rw [hc] at hlen
      simp at hlen
      omega
    have hemp : page.isEmpty = false := by
      cases hx : page with
      | nil => exact absurd hx hpne
      | cons a t => rfl
    have hsuccne : pageSuccesses fetch page ≠ [] :=
      hgood page (List.mem_cons_self page rest)
    have hempsucc : (pageSuccesses fetch page).isEmpty = false := by
      cases hx : pageSuccesses fetch page with
      | nil => exact absurd hx hsuccne
      | cons a t => rfl
    have hnotshort : ¬ page.length < limit := by omega
    rw [show (page :: rest).length + fuel = (rest.length + fuel) + 1 from by
      simp only [List.length_cons]
      omega]
    rw [fetchLoop_ok_page pager fetch sched limit (rest.length + fuel)
      before k page hpg]
    simp only [hemp, Bool.false_eq_true, if_false,
      fetchPagePar_perm fetch page _ (hs k page.length),
      pageSuccesses_eq_filter, hempsucc, List.length_map]
    rw [if_neg hnotshort]
    obtain ⟨last, hlast⟩ :=
      Option.isSome_iff_exists.1 (List.getLast?_isSome.2 hpne)
    simp only [hlast]
    have hcur : nextCursor page before = some last.signature := by
      rw [nextCursor, hlast]
    rw [hcur] at hrest
    have hih := ih (some last.signature) after fuel (k + 1) hrest
      (fun p hp => hgood p (List.mem_cons_of_mem page hp))
    rw [hih]
    rw [show k + 1 + rest.length = k + (page :: rest).length from by
      simp only [List.length_cons]
      omega]
    cases hfl : fetchLoop pager fetch sched limit fuel after
        (k + (page :: rest).length) with
    | error err => rfl
    | ok p2 =>
      obtain ⟨txs, cnt⟩ := p2
      simp [joinMap, failTally, List.append_assoc, Nat.add_assoc]

/-- C9: failure semantics of `run()` anywhere in a run.  Each scenario sits
after an arbitrary prefix of fully processed pages (`pagerPath`): an RPC
error on any later signature-page request aborts the whole run with
`CrawlError::Rpc`, discarding the transactions already fetched from the
prefix (no partial results); a later non-empty page all of whose fetches
fail aborts the run with `CrawlError::PageExhausted`; and when the run ends
on a short page, every single-fetch failure anywhere in the run is
non-fatal — the run succeeds on the page-ordered successful fetches of all
pages and surfaces the total count of skipped signatures. -/
theorem run_failure_semantics (cfg : CrawlerCfg) (limit : Nat)
    (fuelA fuelB fuelC : Nat) (sched : Nat → Nat → List Nat)
    (hs : ∀ k n, (sched k n).Perm (List.range n)) (hlim : 0 < limit)
    (pagerA : Option Signature → Except String (List SigInfo))
    (fetchA : Signature → Except String RawTransaction)
    (pagesA : List (List SigInfo)) (cursorA : Option Signature) (e : String)
    (hA1 : pagerPath pagerA limit none pagesA cursorA)
    (hA2 : ∀ page ∈ pagesA, pageSuccesses fetchA page ≠ [])
    (hA3 : pagerA cursorA = Except.error e)
    (pagerB : Option Signature → Except String (List SigInfo))
    (fetchB : Signature → Except String RawTransaction)
    (pagesB : List (List SigInfo)) (cursorB : Option Signature)
    (pageB : List SigInfo)
    (hB1 : pagerPath pagerB limit none pagesB cursorB)
    (hB2 : ∀ page ∈ pagesB, pageSuccesses fetchB page ≠ [])
    (hB3 : pagerB cursorB = Except.ok pageB) (hB4 : pageB ≠ [])
    (hB5 : ∀ s ∈ pageB, ∃ msg, fetchB s.signature = Except.error msg)
    (pagerC : Option Signature → Except String (List SigInfo))
    (fetchC : Signature → Except String RawTransaction)
    (pagesC : List (List SigInfo)) (cursorC : Option Signature)
    (pageC : List SigInfo)
    (hC1 : pagerPath pagerC limit none pagesC cursorC)
    (hC2 : ∀ page ∈ pagesC, pageSuccesses fetchC page ≠ [])
    (hC3 : pagerC cursorC = Except.ok pageC) (hC4 : pageC ≠ [])
    (hC5 : pageC.length < limit)
    (hC6 : pageSuccesses fetchC pageC ≠ []) :
    runCrawler cfg pagerA fetchA sched limit (pagesA.length + (fuelA + 1))
      = Except.error (CrawlError.Rpc e) ∧
    runCrawler cfg pagerB fetchB sched limit (pagesB.length + (fuelB + 1))
      = Except.error CrawlError.PageExhausted ∧
    runCrawler cfg pagerC fetchC sched limit (pagesC.length + (fuelC + 1))
      = Except.ok (runResult cfg
            (joinMap (fun p => pageSuccesses fetchC p) pagesC
              ++ pageSuccesses fetchC pageC),
          failTally fetchC pagesC
            + (pageC.length - (pageSuccesses fetchC pageC).length)) := by
  refine ⟨?_, ?_, ?_⟩
  · have hsuffix : fetchLoop pagerA fetchA sched limit (fuelA + 1) cursorA
        (0 + pagesA.length) = Except.error (CrawlError.Rpc e) := by
      rw [fetchLoop, hA3]
    have hpre := fetchLoop_prefix pagerA fetchA sched limit hs hlim pagesA
      none cursorA (fuelA + 1) 0 hA1 hA2
    rw [runCrawler, hpre, hsuffix]
  · have hemp : pageB.isEmpty = false := by
      cases hx : pageB with
      | nil => exact absurd hx hB4
      | cons a t => rfl
    have hsuffix : fetchLoop pagerB fetchB sched limit (fuelB + 1) cursorB
        (0 + pagesB.length) = Except.error CrawlError.PageExhausted := by
      rw [fetchLoop_ok_page pagerB fetchB sched limit fuelB cursorB
        (0 + pagesB.length) pageB hB3]
      simp only [hemp, Bool.false_eq_true, if_false,
        fetchPagePar_perm fetchB pageB _ (hs (0 + pagesB.length) pageB.length),
        pageSuccesses_eq_filter, pageSuccesses_eq_nil fetchB pageB hB5,
        List.isEmpty_nil, if_true]
    have hpre := fetchLoop_prefix pagerB fetchB sched limit hs hlim pagesB
      none cursorB (fuelB + 1) 0 hB1 hB2
    rw [runCrawler, hpre, hsuffix]
  · have hemp : pageC.isEmpty = false := by
      cases hx : pageC with
      | nil => exact absurd hx hC4
      | cons a t => rfl
    have hemp2 : (pageSuccesses fetchC pageC).isEmpty = false := by
      cases hx : pageSuccesses fetchC pageC with
      | nil => exact absurd hx hC6
      | cons a t => rfl
    have hsuffix : fetchLoop pagerC fetchC sched limit (fuelC + 1) cursorC
        (0 + pagesC.length)
        = Except.ok (pageSuccesses fetchC pageC,
            pageC.length - (pageSuccesses fetchC pageC).length) := by
      rw [fetchLoop_ok_page pagerC fetchC sched limit fuelC cursorC
        (0 + pagesC.length) pageC hC3]
      simp only [hemp, Bool.false_eq_true, if_false,
        fetchPagePar_perm fetchC pageC _ (hs (0 + pagesC.length) pageC.length),
        pageSuccesses_eq_filter, hemp2, List.length_map, hC5, if_true]
    have hpre := fetchLoop_prefix pagerC fetchC sched limit hs hlim pagesC
      none cursorC (fuelC + 1) 0 hC1 hC2
    rw [runCrawler, hpre, hsuffix]

/-- A single-entry page element used by witnesses. -/
def sigInfoA : SigInfo := { signature := 1, slot := 1, err := none, blockTime := none }

/-- A second page element used by witnesses. -/
def sigInfoB : SigInfo := { signature := 2, slot := 2, err := none, blockTime := none }

/-- A third page element used by witnesses. -/
def sigInfoC : SigInfo := { signature := 3, slot := 3, err := none, blockTime := none }

/-- A full (length two) first page used by the C9 witness prefix. -/
def pageFull : List SigInfo := [sigInfoA, sigInfoB]

/-- A pager that serves one full page and then fails, used by the C9
witness. -/
def pagerMidErr : Option Signature → Except String (List SigInfo) :=
  fun b =>
    match b with
    | none => Except.ok pageFull
    | some _ => Except.error "boom"

/-- A pager that serves one full page and then a non-empty short second
page, used by the C9 witness. -/
def pagerMidPage : Option Signature → Except String (List SigInfo) :=
  fun b =>
    match b with
    | none => Except.ok pageFull
    | some _ => Except.ok [sigInfoC]

/-- A fetcher failing only on signature 3 (the whole second page), used by
the C9 witness. -/
def fetchFailLate : Signature → Except String RawTransaction :=
  fun s => if s == 3 then Except.error "down" else Except.ok exampleRawTx

/-- A fetcher failing only on signature 2 (inside the first page), used by
the C9 witness. -/
def fetchFailMid : Signature → Except String RawTransaction :=
  fun s => if s == 2 then Except.error "down" else Except.ok exampleRawTx

/-- Witness for C9 on concrete oracles with a one-full-page prefix: a
second-page pager error aborts the whole run with `Rpc` and no partial
results, an all-failing second page aborts with `PageExhausted`, and a
fetch failure inside the first page is skipped and counted while the run
succeeds. -/
theorem run_failure_semantics_witness :
    runCrawler exampleCfg pagerMidErr exampleFetch seqSched 2 2
      = Except.error (CrawlError.Rpc "boom") ∧
    runCrawler exampleCfg pagerMidPage fetchFailLate seqSched 2 2
      = Except.error CrawlError.PageExhausted ∧
    runCrawler exampleCfg pagerMidPage fetchFailMid seqSched 2 2
      = Except.ok (runResult exampleCfg
            (joinMap (fun p => pageSuccesses fetchFailMid p) [pageFull]
              ++ pageSuccesses fetchFailMid [sigInfoC]),
          failTally fetchFailMid [pageFull]
            + ([sigInfoC].length
                - (pageSuccesses fetchFailMid [sigInfoC]).length)) :=
  run_failure_semantics exampleCfg 2 0 0 0 seqSched
    (fun _ _ => List.Perm.refl _) (by decide)
    pagerMidErr exampleFetch [pageFull] (some 2) "boom"
    ⟨rfl, rfl, rfl⟩ (by decide) rfl
    pagerMidPage fetchFailLate [pageFull] (some 2) [sigInfoC]
    ⟨rfl, rfl, rfl⟩ (by decide) rfl (by decide)
    (by
      intro s hs
      rw [List.mem_singleton] at hs
      subst hs
      exact ⟨"down", rfl⟩)
    pagerMidPage fetchFailMid [pageFull] (some 2) [sigInfoC]
    ⟨rfl, rfl, rfl⟩ (by decide) rfl (by decide) (by decide) (by decide)


/-! ## C10: the get_cmv2_mints preset returns mint and metadata buckets -/

/-- C10: whenever `get_cmv2_mints` succeeds, the returned mapping's keys
are exactly `mint` and `metadata`, in that order, and each key holds the
bucket extracted for the matching label. -/
theorem get_cmv2_mints_labels
    (pager : Option Signature → Except String (List SigInfo))
    (fetch : Signature → Except String RawTransaction) (fuel : Nat)
    (res : List (String × List PublicKey) × Nat)
    (h : getCmv2Mints pager fetch fuel = Except.ok res) :
    res.1.map Prod.fst = ["mint", "metadata"] ∧
    ∃ txs, res.1 = [("mint", bucket cmv2Cfg txs "mint"),
                    ("metadata", bucket cmv2Cfg txs "metadata")] := by
  rw [getCmv2Mints, runCrawler] at h
  cases hfl : fetchLoop pager fetch seqSched signaturePageSize fuel none 0 with
  | error e => rw [hfl] at h; exact absurd h (by simp)
  | ok p =>
    obtain ⟨txs, n⟩ := p
    rw [hfl] at h
    simp only [Except.ok.injEq] at h
    rw [← h]
    exact ⟨rfl, ⟨txs, rfl⟩⟩

/-- A pager whose chain is empty, used by the C10 witness. -/
def pagerEmpty : Option Signature → Except String (List SigInfo) :=
  fun _ => Except.ok []

/-- Witness for C10: on an empty chain the preset succeeds and returns the
two accordingly-labeled (empty) buckets. -/
theorem get_cmv2_mints_labels_witness :
    (runResult cmv2Cfg ([] : List (Signature × RawTransaction))).map Prod.fst
      = ["mint", "metadata"] ∧
    ∃ txs, runResult cmv2Cfg ([] : List (Signature × RawTransaction))
      = [("mint", bucket cmv2Cfg txs "mint"),
         ("metadata", bucket cmv2Cfg txs "metadata")] :=
  get_cmv2_mints_labels pagerEmpty exampleFetch 1
    (runResult cmv2Cfg [], 0) rfl

/-! ## C8: pagination and single visitation -/

theorem entriesOlderThan_getElem :
    ∀ (chain : List SigInfo) (i : Nat) (s : SigInfo),
      (chain.map (fun t => t.signature)).Nodup → chain[i]? = some s →
      entriesOlderThan s.signature chain = chain.drop (i + 1) := by
  intro chain
  induction chain with
  | nil => intro i s _ hs; simp at hs
  | cons e rest ih =>
    intro i s hnd hs
    cases i with
    | zero =>
      rw [List.getElem?_cons_zero, Option.some_inj] at hs
      subst hs
      rw [entriesOlderThan]
      simp
    | succ i =>
      rw [List.getElem?_cons_succ] at hs
      have hmem : s ∈ rest := List.getElem?_mem hs
      rw [List.map_cons, List.nodup_cons] at hnd
      have hneq : (e.signature == s.signature) = false := by
        refine beq_eq_false_iff_ne.2 (fun hc => hnd.1 ?_)
        rw [hc]
        exact List.mem_map_of_mem (fun t => t.signature) hmem
      rw [entriesOlderThan, hneq]
      simp only [Bool.false_eq_true, if_false]
      exact ih i s hnd.2 hs

theorem pageSuccesses_allOk (ftotal : Signature → RawTransaction)
    (page : List SigInfo) :
    pageSuccesses (fun s => Except.ok (ftotal s)) page
      = page.map (fun s => (s.signature, ftotal s.signature)) := by
  rw [pageSuccesses]
  induction page with
  | nil => rfl
  | cons a t ih => rw [List.filterMap_cons, List.map_cons, ih]

theorem fetchLoop_chain (chain : List SigInfo) (limit : Nat)
    (ftotal : Signature → RawTransaction)
    (hnd : (chain.map (fun t => t.signature)).Nodup) (hlim : 0 < limit) :
    ∀ (fuel n : Nat) (before : Option Signature) (k : Nat),
      (match before with
       | none => chain
       | some b => entriesOlderThan b chain) = chain.drop n →
      chain.length - n < fuel * limit →
      fetchLoop (fun b => Except.ok (listSignatures chain b limit))
          (fun s => Except.ok (ftotal s)) seqSched limit fuel before k
        = Except.ok
            ((chain.drop n).map (fun s => (s.signature, ftotal s.signature)), 0) := by
  intro fuel
  induction fuel with
  | zero =>
    intro n before k _ hf
    rw [Nat.zero_mul] at hf
    exact absurd hf (Nat.not_lt_zero _)
  | succ fuel ih =>
    intro n before k hb hf
    have hpage : listSignatures chain before limit = (chain.drop n).take limit := by
      cases before with
      | none =>
        rw [listSignatures]
        exact congrArg (fun l => l.take limit) hb
      | some b =>
        rw [listSignatures]
        exact congrArg (fun l => l.take limit) hb
    rw [fetchLoop_ok_page _ _ _ _ _ _ _ ((chain.drop n).take limit)
      (congrArg Except.ok hpage)]
    by_cases hnil : chain.drop n = []
    · rw [hnil, List.take_nil]
      simp [List.isEmpty_nil]
    · have hpne : (chain.drop n).take limit ≠ [] := by
        intro hc
        rcases List.take_eq_nil_iff.1 hc with h0 | h0
        · omega
        · exact hnil h0
      have hempfalse : ((chain.drop n).take limit).isEmpty = false := by
        cases hx : (chain.drop n).take limit with
        | nil => exact absurd hx hpne
        | cons a t => rfl
      have hempmap : (((chain.drop n).take limit).map
          (fun s => (s.signature, ftotal s.signature))).isEmpty = false := by
        cases hx : (chain.drop n).take limit with
        | nil => exact absurd hx hpne
        | cons a t => rfl
      simp only [hempfalse, Bool.false_eq_true, if_false,
        fetchPagePar_perm (fun s => Except.ok (ftotal s))
          ((chain.drop n).take limit) _
          (show (seqSched k ((chain.drop n).take limit).length).Perm
              (List.range ((chain.drop n).take limit).length) from
            List.Perm.refl _),
        pageSuccesses_eq_filter (fun s => Except.ok (ftotal s))
          ((chain.drop n).take limit),
        pageSuccesses_allOk ftotal ((chain.drop n).take limit),
        hempmap, List.length_map, Nat.sub_self]
      by_cases hshort : ((chain.drop n).take limit).length < limit
      · rw [if_pos hshort]
        have hlen : (chain.drop n).length < limit := by
          rw [List.length_take] at hshort
          omega
        rw [List.take_of_length_le (Nat.le_of_lt hlen)]
      · rw [if_neg hshort]
        have hlen : ((chain.drop n).take limit).length = limit := by
          rw [List.length_take] at hshort ⊢
          omega
        obtain ⟨last, hlast⟩ :=
          Option.isSome_iff_exists.1 (List.getLast?_isSome.2 hpne)
        have hidx : chain[n + (limit - 1)]? = some last := by
          have h1 : ((chain.drop n).take limit).getLast?
              = ((chain.drop n).take limit)[limit - 1]? := by
            rw [List.getLast?_eq_getElem?, hlen]
          have h2 := hlast
          rw [h1, List.getElem?_take,
            if_pos (show limit - 1 < limit by omega),
            List.getElem?_drop] at h2
          exact h2
        have hnext : entriesOlderThan last.signature chain
            = chain.drop (n + limit) := by
          have h2 := entriesOlderThan_getElem chain (n + (limit - 1)) last hnd hidx
          have harith : n + (limit - 1) + 1 = n + limit := by omega
          rw [harith] at h2
          exact h2
        have hfuel2 : chain.length - (n + limit) < fuel * limit := by
          have hge : limit ≤ (chain.drop n).length := by
            rw [List.length_take] at hlen
            omega
          have hlendrop : (chain.drop n).length = chain.length - n :=
            List.length_drop n chain
          have hf2 : chain.length - n < fuel * limit + limit := by
            have h3 : (fuel + 1) * limit = fuel * limit + limit := by ring
            exact h3 ▸ hf
          omega
        have hrec := ih (n + limit) (some last.signature) (k + 1) hnext hfuel2
        simp only [hlast]
        rw [hrec]
        conv_rhs =>
          rw [← List.take_append_drop limit (chain.drop n), List.map_append,
            List.drop_drop]

/-- C8: with the chain-backed pager (entries strictly older than the
cursor), a run whose fuel covers the chain enumerates the whole signature
history newest-first, passing the oldest signature of each full page as the
next cursor, stops at the first short or empty page, fetches every
signature exactly once in order, and the visited signature list is
duplicate-free. -/
theorem pagination_single_visitation (chain : List SigInfo) (limit fuel : Nat)
    (ftotal : Signature → RawTransaction)
    (hnd : (chain.map (fun t => t.signature)).Nodup)
    (hlim : 0 < limit) (hfuel : chain.length < fuel * limit) :
    fetchLoop (fun b => Except.ok (listSignatures chain b limit))
        (fun s => Except.ok (ftotal s)) seqSched limit fuel none 0
      = Except.ok (chain.map (fun s => (s.signature, ftotal s.signature)), 0) ∧
    ((chain.map (fun s => (s.signature, ftotal s.signature))).map Prod.fst).Nodup := by
  constructor
  · have h := fetchLoop_chain chain limit ftotal hnd hlim fuel 0 none 0
      (by rw [List.drop_zero]) (by simpa using hfuel)
    rw [List.drop_zero] at h
    exact h
  · rw [List.map_map]
    exact hnd

/-- A three-entry chain with distinct signatures, used by the C8 witness. -/
def exampleChain : List SigInfo :=
  [sigInfoA, sigInfoB, { signature := 3, slot := 3, err := none, blockTime := none }]

/-- Witness for C8 on a concrete chain of three distinct signatures and page
size 1000: one short page visits each signature exactly once. -/
theorem pagination_single_visitation_witness :
    fetchLoop (fun b => Except.ok (listSignatures exampleChain b 1000))
        (fun _ => Except.ok exampleRawTx) seqSched 1000 1 none 0
      = Except.ok (exampleChain.map (fun s => (s.signature, exampleRawTx)), 0) ∧
    ((exampleChain.map (fun s => (s.signature, exampleRawTx))).map Prod.fst).Nodup :=
  pagination_single_visitation exampleChain 1000 1 (fun _ => exampleRawTx)
    (by decide) (by decide) (by decide)
